import Mathlib

/-!
Verification of the `Collection` wrapper (src/index.ts) of pouchdb-orm.

The wrapper binds a PouchDB database handle, a collection-name string and a
Zod schema, and exposes `put`, `update`, `find`, `findById`, `removeById`.
We shallowly embed:

* JSON-ish documents as association lists from field names to values
  (JS objects have unique keys; property assignment `doc.k = v` is `alSet`,
  which replaces the value in place or appends the key at the end, exactly
  like JS property assignment / object-spread override);
* the Zod object schema collaborator as `objectParse` (declared fields are
  type-checked, required fields must be present, unknown keys are stripped —
  Zod's default object behaviour, exercised by the repository's tests);
* the PouchDB store collaborator at the boundary described in spec §6:
  a map from id to a revision generation plus a body, with `dbPut`
  (optimistic concurrency control on `_rev`, rejection of documents whose
  `_id` is missing or empty with the message "_id is required for puts" —
  PouchDB's `invalidIdError`, surfaced verbatim by the repository's own
  test "reject with an invalid schema"), `dbGet` (injects `_id`/`_rev`
  from store metadata into the returned body, 404 "missing" on absent or
  deleted ids), `dbRemove` (tombstone write conditional on `_rev`) and
  `dbFind` (equality-selector filtering plus skip/limit/field projection);
* each Collection method as a function of the database state returning the
  settled result, the resulting state, and the trace of store calls it
  issued, so that claims about *what is submitted to the store* are
  statements about the trace.

`Collection.removeByIdWith` exposes the environment step between the awaited
`get` and the issued (NOT awaited) `remove` of `removeById`, modelling the
concurrent callers of spec §5; `removeById` itself is the instance with no
interference, i.e. straight-line single-client execution.
-/

/-- A JSON-ish field value. Attachments and nested objects are passthrough
for every claim under study, so scalar values suffice for the model. -/
inductive Val where
  | str : String → Val
  | num : Int → Val
  | bool : Bool → Val
  deriving DecidableEq, Repr

/-- A JS object: an association list from field name to value, first
occurrence wins on lookup (real JS objects never hold a duplicate key). -/
abbrev Doc := List (String × Val)

/-- Lookup of the first binding of a key (JS property read). -/
def alGet {α : Type} : List (String × α) → String → Option α
  | [], _ => none
  | p :: rest, k => if p.1 = k then some p.2 else alGet rest k

/-- Whether a key is bound. -/
def alHasKey {α : Type} (l : List (String × α)) (k : String) : Bool :=
  (alGet l k).isSome

/-- JS property assignment / object-spread override: replace the binding in
place when the key exists, append it at the end otherwise. -/
def alSet {α : Type} (l : List (String × α)) (k : String) (v : α) :
    List (String × α) :=
  if alHasKey l k then l.map (fun p => if p.1 = k then (k, v) else p)
  else l ++ [(k, v)]

/-- Number of bindings of a key. -/
def alCount {α : Type} (l : List (String × α)) (k : String) : Nat :=
  (l.filter (fun p => p.1 == k)).length

theorem alHasKey_false {α : Type} {l : List (String × α)} {k : String}
    (h : ¬ alHasKey l k = true) : alGet l k = none := by
  unfold alHasKey at h
  cases hg : alGet l k with
  | none => rfl
  | some w => rw [hg] at h; simp at h

theorem alGet_append {α : Type} (l l2 : List (String × α)) (k : String) :
    alGet (l ++ l2) k =
      match alGet l k with
      | some v => some v
      | none => alGet l2 k := by
  induction l with
  | nil => simp [alGet]
  | cons p rest ih =>
    simp only [List.cons_append, alGet]
    by_cases hk : p.1 = k
    · simp [hk]
    · simp only [hk, if_false]
      exact ih

theorem alGet_map_replace_same {α : Type} (l : List (String × α))
    (k : String) (v : α) :
    alGet (l.map (fun p => if p.1 = k then (k, v) else p)) k =
      if alHasKey l k then some v else none := by
  induction l with
  | nil => simp [alGet, alHasKey]
  | cons p rest ih =>
    by_cases hk : p.1 = k
    · simp [alGet, alHasKey, hk]
    · simp only [List.map_cons, hk, if_false, alGet, alHasKey] at ih ⊢
      exact ih

theorem alGet_map_replace_ne {α : Type} (l : List (String × α))
    {k k2 : String} (hne : k2 ≠ k) (v : α) :
    alGet (l.map (fun p => if p.1 = k then (k, v) else p)) k2 =
      alGet l k2 := by
  induction l with
  | nil => rfl
  | cons p rest ih =>
    by_cases hk : p.1 = k
    · have hne2 : ¬ (k = k2) := fun hc => hne hc.symm
      have hp2 : ¬ (p.1 = k2) := by rw [hk]; exact hne2
      simp only [List.map_cons, hk, if_true, alGet, hne2, if_false, hp2]
      exact ih
    · simp only [List.map_cons, hk, if_false, alGet]
      by_cases hp2 : p.1 = k2
      · simp [hp2]
      · simp only [hp2, if_false]
        exact ih

theorem alGet_alSet_same {α : Type} (l : List (String × α)) (k : String)
    (v : α) : alGet (alSet l k v) k = some v := by
  unfold alSet
  by_cases h : alHasKey l k
  · rw [if_pos h, alGet_map_replace_same, if_pos h]
  · rw [if_neg h, alGet_append, alHasKey_false h]
    simp [alGet]

theorem alGet_alSet_ne {α : Type} (l : List (String × α)) {k k2 : String}
    (hne : k2 ≠ k) (v : α) : alGet (alSet l k v) k2 = alGet l k2 := by
  unfold alSet
  by_cases h : alHasKey l k
  · rw [if_pos h]
    exact alGet_map_replace_ne l hne v
  · rw [if_neg h, alGet_append]
    cases hg : alGet l k2 with
    | some w => rfl
    | none =>
      simp only [alGet]
      rw [if_neg (fun hc : k = k2 => hne hc.symm)]

theorem alGet_eq_none_of_not_mem_keys {α : Type} {l : List (String × α)}
    {k : String} (h : k ∉ l.map Prod.fst) : alGet l k = none := by
  induction l with
  | nil => rfl
  | cons p rest ih =>
    simp only [List.map_cons, List.mem_cons] at h
    push_neg at h
    simp only [alGet]
    rw [if_neg (fun hc => h.1 hc.symm)]
    exact ih h.2

theorem alCount_append {α : Type} (l l2 : List (String × α)) (k : String) :
    alCount (l ++ l2) k = alCount l k + alCount l2 k := by
  simp [alCount, List.filter_append]

theorem alCount_eq_zero_of_alGet_none {α : Type} {l : List (String × α)}
    {k : String} (h : alGet l k = none) : alCount l k = 0 := by
  induction l with
  | nil => rfl
  | cons p rest ih =>
    simp only [alGet] at h
    by_cases hk : p.1 = k
    · simp [hk] at h
    · simp only [hk, if_false] at h
      have hb : (p.1 == k) = false := beq_eq_false_iff_ne.2 hk
      simp only [alCount, List.filter_cons, hb, if_false]
      exact ih h

theorem alCount_map_replace {α : Type} (l : List (String × α))
    (k k2 : String) (v : α) :
    alCount (l.map (fun p => if p.1 = k then (k, v) else p)) k2 =
      alCount l k2 := by
  induction l with
  | nil => rfl
  | cons p rest ih =>
    by_cases hk : p.1 = k
    · by_cases hk2 : k = k2
      · have hb : (p.1 == k2) = true := beq_iff_eq.2 (hk.trans hk2)
        have hb2 : (k == k2) = true := beq_iff_eq.2 hk2
        simp only [alCount, List.map_cons, hk, if_true, List.filter_cons,
          hb, hb2, if_true]
        simp only [alCount] at ih
        simp [ih]
      · have hb : (p.1 == k2) = false :=
          beq_eq_false_iff_ne.2 (by rw [hk]; exact hk2)
        have hb2 : (k == k2) = false := beq_eq_false_iff_ne.2 hk2
        simp only [alCount, List.map_cons, hk, if_true, List.filter_cons,
          hb, hb2, if_false]
        exact ih
    · simp only [alCount, List.map_cons, hk, if_false, List.filter_cons]
      by_cases hp2 : (p.1 == k2) = true
      · simp only [hp2, if_true]
        simp only [alCount] at ih
        simp [ih]
      · simp only [eq_false_of_ne_true hp2, if_false]
        exact ih

theorem alCount_pos_of_alHasKey {α : Type} {l : List (String × α)}
    {k : String} (h : alHasKey l k = true) : 1 ≤ alCount l k := by
  induction l with
  | nil => simp [alHasKey, alGet] at h
  | cons p rest ih =>
    unfold alHasKey at h ih
    simp only [alGet] at h
    by_cases hk : p.1 = k
    · have hb : (p.1 == k) = true := beq_iff_eq.2 hk
      simp [alCount, List.filter_cons, hb]
    · simp only [hk, if_false] at h
      have hb : (p.1 == k) = false := beq_eq_false_iff_ne.2 hk
      have := ih h
      simp only [alCount, List.filter_cons, hb, if_false] at this ⊢
      exact this

theorem alCount_alSet_self {α : Type} {l : List (String × α)} {k : String}
    (h : alCount l k ≤ 1) (v : α) : alCount (alSet l k v) k = 1 := by
  unfold alSet
  by_cases hh : alHasKey l k
  · rw [if_pos hh, alCount_map_replace]
    have := alCount_pos_of_alHasKey hh
    omega
  · rw [if_neg hh, alCount_append]
    rw [alCount_eq_zero_of_alGet_none (alHasKey_false hh)]
    have hb : (k == k) = true := beq_iff_eq.2 rfl
    simp [alCount, List.filter_cons, hb]

theorem alCount_alSet_ne {α : Type} (l : List (String × α)) {k k2 : String}
    (hne : k2 ≠ k) (v : α) : alCount (alSet l k v) k2 = alCount l k2 := by
  unfold alSet
  by_cases hh : alHasKey l k
  · rw [if_pos hh, alCount_map_replace]
  · rw [if_neg hh, alCount_append]
    have hb : (k == k2) = false :=
      beq_eq_false_iff_ne.2 (fun hc => hne hc.symm)
    simp [alCount, List.filter_cons, hb]

theorem alSet_mem_self {α : Type} (l : List (String × α)) (k : String)
    (v : α) : (k, v) ∈ alSet l k v := by
  unfold alSet
  by_cases hh : alHasKey l k
  · rw [if_pos hh]
    unfold alHasKey at hh
    induction l with
    | nil => simp [alGet] at hh
    | cons p rest ih =>
      simp only [alGet] at hh
      by_cases hk : p.1 = k
      · simp [hk]
      · simp only [hk, if_false] at hh
        simp only [List.map_cons, hk, if_false, List.mem_cons]
        exact Or.inr (ih hh)
  · rw [if_neg hh]
    simp

theorem alGet_mem {α : Type} {l : List (String × α)} {k : String} {v : α}
    (h : alGet l k = some v) : (k, v) ∈ l := by
  induction l with
  | nil => simp [alGet] at h
  | cons p rest ih =>
    simp only [alGet] at h
    by_cases hk : p.1 = k
    · rw [if_pos hk] at h
      obtain ⟨p1, p2⟩ := p
      simp only at hk
      simp only [Option.some.injEq] at h
      subst hk; subst h
      exact List.mem_cons_self _ _
    · rw [if_neg hk] at h
      exact List.mem_cons_of_mem _ (ih h)

theorem nodupKeys_alCount_le_one {α : Type} {l : List (String × α)}
    (h : (l.map Prod.fst).Nodup) (k : String) : alCount l k ≤ 1 := by
  induction l with
  | nil => simp [alCount]
  | cons p rest ih =>
    simp only [List.map_cons, List.nodup_cons] at h
    by_cases hk : p.1 = k
    · have hb : (p.1 == k) = true := beq_iff_eq.2 hk
      simp only [alCount, List.filter_cons, hb, if_true]
      have : alCount rest k = 0 := by
        apply alCount_eq_zero_of_alGet_none
        apply alGet_eq_none_of_not_mem_keys
        rw [hk] at h
        exact h.1
      simp only [alCount] at this
      simp [this]
    · have hb : (p.1 == k) = false := beq_eq_false_iff_ne.2 hk
      simp only [alCount, List.filter_cons, hb, if_false]
      exact ih h.2

/-- Scalar types a Zod field declaration can require in the model
(`z.string()`, `z.number()`, `z.boolean()`). -/
inductive FieldType where
  | tStr : FieldType
  | tNum : FieldType
  | tBool : FieldType
  deriving DecidableEq, Repr

/-- One Zod field declaration: its scalar type and whether `.optional()`
was applied. -/
structure FieldSpec where
  ftype : FieldType
  opt : Bool
  deriving DecidableEq, Repr

/-- Runtime type check of a value against a field declaration. -/
def checkVal : FieldType → Val → Bool
  | .tStr, .str _ => true
  | .tNum, .num _ => true
  | .tBool, .bool _ => true
  | _, _ => false

/-- Zod `z.object(...).parse` over the declared fields: each declared field
is type-checked when present and demanded when required; the output holds
exactly the declared fields that are present, in declaration order —
undeclared keys are stripped (Zod's default object mode, confirmed by the
repository test "remove extra fields"). Errors carry (path, message). -/
def objectParseFields (fs : List (String × FieldSpec)) (d : Doc) :
    Except (List (String × String)) Doc :=
  match fs with
  | [] => .ok []
  | (k, s) :: rest =>
    match alGet d k with
    | some v =>
      if checkVal s.ftype v then
        match objectParseFields rest d with
        | .ok out => .ok ((k, v) :: out)
        | .error e => .error e
      else .error [(k, "Invalid type")]
    | none =>
      if s.opt then objectParseFields rest d
      else .error [(k, "Required")]


theorem objectParseFields_keys_sublist {fs : List (String × FieldSpec)}
    {d : Doc} {out : Doc} (h : objectParseFields fs d = .ok out) :
    List.Sublist (out.map Prod.fst) (fs.map Prod.fst) := by
  induction fs generalizing out with
  | nil =>
    simp only [objectParseFields] at h
    cases h
    simp
  | cons p rest ih =>
    obtain ⟨k, s⟩ := p
    simp only [objectParseFields] at h
    split at h
    · split at h
      · split at h
        · rename_i out2 hrest
          cases h
          simpa using List.Sublist.cons₂ k (ih hrest)
        · exact Except.noConfusion h
      · exact Except.noConfusion h
    · split at h
      · exact List.Sublist.cons k (ih h)
      · exact Except.noConfusion h

theorem objectParseFields_nodup_keys {fs : List (String × FieldSpec)}
    {d : Doc} {out : Doc} (hnd : (fs.map Prod.fst).Nodup)
    (h : objectParseFields fs d = .ok out) :
    (out.map Prod.fst).Nodup :=
  hnd.sublist (objectParseFields_keys_sublist h)

theorem objectParseFields_get_undeclared {fs : List (String × FieldSpec)}
    {d : Doc} {out : Doc} {k : String}
    (h : objectParseFields fs d = .ok out) (hk : k ∉ fs.map Prod.fst) :
    alGet out k = none := by
  apply alGet_eq_none_of_not_mem_keys
  exact fun hmem => hk ((objectParseFields_keys_sublist h).mem hmem)

theorem objectParseFields_get_declared {fs : List (String × FieldSpec)}
    {d : Doc} {out : Doc} {k : String}
    (hnd : (fs.map Prod.fst).Nodup)
    (h : objectParseFields fs d = .ok out) (hk : k ∈ fs.map Prod.fst) :
    alGet out k = alGet d k := by
  induction fs generalizing out with
  | nil => simp at hk
  | cons p rest ih =>
    obtain ⟨k0, s⟩ := p
    simp only [List.map_cons, List.nodup_cons] at hnd
    simp only [objectParseFields] at h
    split at h
    · rename_i v hg
      split at h
      · split at h
        · rename_i out2 hrest
          cases h
          by_cases hkk : k0 = k
          · subst hkk
            simp only [alGet, if_pos rfl]
            exact hg.symm
          · simp only [alGet, hkk, if_false]
            simp only [List.map_cons, List.mem_cons] at hk
            rcases hk with hk | hk
            · exact absurd hk.symm hkk
            · exact ih hnd.2 hrest hk
        · exact Except.noConfusion h
      · exact Except.noConfusion h
    · rename_i hg
      split at h
      · by_cases hkk : k0 = k
        · subst hkk
          rw [objectParseFields_get_undeclared h hnd.1, hg]
        · simp only [List.map_cons, List.mem_cons] at hk
          rcases hk with hk | hk
          · exact absurd hk.symm hkk
          · exact ih hnd.2 h hk
      · exact Except.noConfusion h

/-- The per-field validity condition making an object parse succeed. -/
def fieldOk (d : Doc) (p : String × FieldSpec) : Prop :=
  match alGet d p.1 with
  | some v => checkVal p.2.ftype v = true
  | none => p.2.opt = true

theorem objectParseFields_ok_of_fields {fs : List (String × FieldSpec)}
    {d : Doc} (h : ∀ p ∈ fs, fieldOk d p) :
    ∃ out, objectParseFields fs d = .ok out := by
  induction fs with
  | nil => exact ⟨[], rfl⟩
  | cons p rest ih =>
    obtain ⟨k, s⟩ := p
    have hp := h (k, s) (List.mem_cons_self _ _)
    obtain ⟨out2, hout2⟩ := ih (fun q hq => h q (List.mem_cons_of_mem _ hq))
    unfold fieldOk at hp
    simp only [objectParseFields]
    cases hg : alGet d k with
    | some v =>
      rw [hg] at hp
      have hp2 : checkVal s.ftype v = true := hp
      exact ⟨(k, v) :: out2, by simp [hp2, hout2]⟩
    | none =>
      rw [hg] at hp
      have hp2 : s.opt = true := hp
      exact ⟨out2, by simp [hp2, hout2]⟩

theorem objectParseFields_fields_of_ok {fs : List (String × FieldSpec)}
    {d : Doc} {out : Doc} (h : objectParseFields fs d = .ok out) :
    ∀ p ∈ fs, fieldOk d p := by
  induction fs generalizing out with
  | nil => simp
  | cons p rest ih =>
    obtain ⟨k, s⟩ := p
    simp only [objectParseFields] at h
    intro q hq
    split at h
    · rename_i v hg
      split at h
      · rename_i hc
        split at h
        · rename_i out2 hrest
          rcases List.mem_cons.1 hq with hq1 | hq2
          · subst hq1
            unfold fieldOk
            rw [hg]
            exact hc
          · exact ih hrest q hq2
        · exact Except.noConfusion h
      · exact Except.noConfusion h
    · rename_i hg
      split at h
      · rename_i ho
        rcases List.mem_cons.1 hq with hq1 | hq2
        · subst hq1
          unfold fieldOk
          rw [hg]
          exact ho
        · exact ih h q hq2
      · exact Except.noConfusion h

theorem keyed_mem_nodup_eq {α : Type} {l : List (String × α)} {k : String}
    {a b : α} (hnd : (l.map Prod.fst).Nodup)
    (ha : (k, a) ∈ l) (hb : (k, b) ∈ l) : a = b := by
  induction l with
  | nil => simp at ha
  | cons p rest ih =>
    simp only [List.map_cons, List.nodup_cons] at hnd
    rcases List.mem_cons.1 ha with ha1 | ha2 <;>
      rcases List.mem_cons.1 hb with hb1 | hb2
    · rw [← ha1] at hb1
      injection hb1 with h1 h2
      exact h2.symm
    · exfalso
      apply hnd.1
      rw [← ha1]
      exact List.mem_map.2 ⟨(k, b), hb2, rfl⟩
    · exfalso
      apply hnd.1
      rw [← hb1]
      exact List.mem_map.2 ⟨(k, a), ha2, rfl⟩
    · exact ih hnd.2 ha2 hb2

/-- The error taxonomy of spec §7, with the literal messages the store and
the validator produce. -/
inductive DbError where
  | validation (issues : List (String × String))
  | notFound (msg : String)
  | conflict (msg : String)
  | missingId (msg : String)
  | invalidId (msg : String)
  deriving DecidableEq, Repr

/-- Zod `.parse` wrapped into the common error type. -/
def objectParse (fs : List (String × FieldSpec)) (d : Doc) :
    Except DbError Doc :=
  match objectParseFields fs d with
  | .ok out => .ok out
  | .error e => .error (.validation e)

/-- The store's response to a successful conditional write. -/
structure PutResp where
  id : String
  rev : String
  ok : Bool
  deriving DecidableEq, Repr

/-- One stored document: its revision generation, whether the current
revision is a tombstone, and the stored body. -/
structure Entry where
  gen : Nat
  deleted : Bool
  doc : Doc
  deriving DecidableEq, Repr

/-- The physical database: id-keyed entries shared by all collections. -/
abbrev DB := List (String × Entry)

/-- Revision token `"<generation>-<hash>"` (spec §3); the content hash is
outside the model's scope and is a fixed placeholder. -/
def revString (g : Nat) : String := toString g ++ "-x"

/-- The document the store hands back for an entry: the body with `_id` and
`_rev` injected from the store's metadata (PouchDB's `get`/`find` always
report the winning revision and id, whatever the stored body holds). -/
def entryOut (id : String) (e : Entry) : Doc :=
  alSet (alSet e.doc "_id" (.str id)) "_rev" (.str (revString e.gen))

/-- Store `get`: 404 "missing" for an absent or deleted (tombstoned) id. -/
def dbGet (db : DB) (id : String) : Except DbError Doc :=
  match alGet db id with
  | some e => if e.deleted then .error (.notFound "missing") else .ok (entryOut id e)
  | none => .error (.notFound "missing")

/-- Current generation of an id's lineage (0 when the id was never written);
a successful write always continues the lineage at this plus one. -/
def dbGenOf (db : DB) (id : String) : Nat :=
  match alGet db id with
  | some e => e.gen
  | none => 0

/-- Store `put`: PouchDB's `invalidIdError` (missing or empty `_id` gives
"_id is required for puts", a non-string `_id` gives "Document id must be a
string"), then optimistic concurrency control on `_rev` — a write is
accepted only when the supplied revision token matches the current one
(absent token on a fresh or tombstoned lineage), otherwise it fails with
"Document update conflict" (spec §4 step 4, §6). -/
def dbPut (db : DB) (d : Doc) : Except DbError (PutResp × DB) :=
  match alGet d "_id" with
  | none => .error (.missingId "_id is required for puts")
  | some (.str id) =>
    if id = "" then .error (.missingId "_id is required for puts")
    else
      match alGet db id, alGet d "_rev" with
      | none, none =>
        .ok ({id := id, rev := revString 1, ok := true},
          alSet db id {gen := 1, deleted := false, doc := d})
      | none, some _ => .error (.conflict "Document update conflict")
      | some e, none =>
        if e.deleted then
          .ok ({id := id, rev := revString (e.gen + 1), ok := true},
            alSet db id {gen := e.gen + 1, deleted := false, doc := d})
        else .error (.conflict "Document update conflict")
      | some e, some (.str r) =>
        if e.deleted then .error (.conflict "Document update conflict")
        else if r = revString e.gen then
          .ok ({id := id, rev := revString (e.gen + 1), ok := true},
            alSet db id {gen := e.gen + 1, deleted := false, doc := d})
        else .error (.conflict "Document update conflict")
      | some _, some _ => .error (.conflict "Document update conflict")
  | some _ => .error (.invalidId "Document id must be a string")

/-- Store `remove(doc)`: a tombstone write conditional on the document's
`_rev` (404 "missing" on an absent or already deleted id, conflict on a
stale revision token); deletion advances the generation (spec §4). -/
def dbRemove (db : DB) (d : Doc) : Except DbError (PutResp × DB) :=
  match alGet d "_id" with
  | some (.str id) =>
    match alGet db id with
    | some e =>
      if e.deleted then .error (.notFound "missing")
      else
        match alGet d "_rev" with
        | some (.str r) =>
          if r = revString e.gen then
            .ok ({id := id, rev := revString (e.gen + 1), ok := true},
              alSet db id {gen := e.gen + 1, deleted := true, doc := e.doc})
          else .error (.conflict "Document update conflict")
        | _ => .error (.conflict "Document update conflict")
    | none => .error (.notFound "missing")
  | _ => .error (.notFound "missing")

/-- Equality-selector matching (the selector fragment the claims rely on:
each selector key must equal the document's value at that key). -/
def selMatch (sel : List (String × Val)) (d : Doc) : Bool :=
  sel.all (fun p => alGet d p.1 == some p.2)

/-- The store's query options / request descriptor (spec §6 `find`):
selector, field projection, sort, limit, skip, index hint. Sort and the
index hint are passthrough for every claim under study. -/
structure FindOptions where
  selector : Option (List (String × Val))
  fields : Option (List String)
  sort : Option (List (String × Bool))
  limit : Option Nat
  skip : Option Nat
  use_index : Option String
  deriving DecidableEq, Repr

/-- The empty options object (what spreading an absent `options` yields). -/
def emptyFind : FindOptions :=
  {selector := none, fields := none, sort := none, limit := none,
   skip := none, use_index := none}

/-- Field projection: keep only the requested fields. -/
def project (d : Doc) (fl : List String) : Doc :=
  d.filter (fun p => fl.contains p.1)

/-- The undeleted stored documents matching a selector (the set a find
request draws from, before skip/limit/projection). -/
def dbMatches (db : DB) (sel : List (String × Val)) : List Doc :=
  (db.filter (fun p => !p.2.deleted && selMatch sel (entryOut p.1 p.2))).map
    (fun p => entryOut p.1 p.2)

/-- Store `find`: selector filtering, then skip, limit and projection.
Result order is the store's iteration order (spec §4: "whatever the store's
query execution returns"); sort directives are passthrough. -/
def dbFind (db : DB) (req : FindOptions) : List Doc :=
  let ms := dbMatches db (req.selector.getD [])
  let ms := match req.skip with
    | some n => ms.drop n
    | none => ms
  let ms := match req.limit with
    | some n => ms.take n
    | none => ms
  match req.fields with
  | some fl => ms.map (fun d => project d fl)
  | none => ms

/-- First-error traversal: `docs.map((doc) => this.schema.parse(doc))` in
JS throws out of the whole `map` at the first failing record. -/
def mapE {α β : Type} (f : α → Except DbError β) : List α → Except DbError (List β)
  | [] => .ok []
  | a :: as =>
    match f a with
    | .error e => .error e
    | .ok b =>
      match mapE f as with
      | .error e => .error e
      | .ok bs => .ok (b :: bs)

theorem dbGet_error_eq {db : DB} {id : String} {e : DbError}
    (h : dbGet db id = .error e) : e = .notFound "missing" := by
  unfold dbGet at h
  split at h
  · split at h
    · cases h; rfl
    · exact Except.noConfusion h
  · cases h; rfl

theorem dbGet_ok_inv {db : DB} {id : String} {d : Doc}
    (h : dbGet db id = .ok d) :
    ∃ e, alGet db id = some e ∧ e.deleted = false ∧ d = entryOut id e := by
  unfold dbGet at h
  split at h
  · rename_i e he
    split at h
    · exact Except.noConfusion h
    · rename_i hdel
      cases h
      exact ⟨e, he, by simpa using hdel, rfl⟩
  · exact Except.noConfusion h

theorem entryOut_get_rev (id : String) (e : Entry) :
    alGet (entryOut id e) "_rev" = some (.str (revString e.gen)) :=
  alGet_alSet_same _ _ _

theorem entryOut_get_id (id : String) (e : Entry) :
    alGet (entryOut id e) "_id" = some (.str id) := by
  unfold entryOut
  rw [alGet_alSet_ne _ (by decide), alGet_alSet_same]

theorem entryOut_get_other (id : String) (e : Entry) {k : String}
    (h1 : k ≠ "_id") (h2 : k ≠ "_rev") :
    alGet (entryOut id e) k = alGet e.doc k := by
  unfold entryOut
  rw [alGet_alSet_ne _ h2, alGet_alSet_ne _ h1]

theorem dbPut_ok_inv {db : DB} {d : Doc} {resp : PutResp} {db2 : DB}
    (h : dbPut db d = .ok (resp, db2)) :
    ∃ id, alGet d "_id" = some (.str id) ∧ id ≠ "" ∧
      resp = {id := id, rev := revString (dbGenOf db id + 1), ok := true} ∧
      db2 = alSet db id
        {gen := dbGenOf db id + 1, deleted := false, doc := d} := by
  unfold dbPut at h
  split at h
  · exact Except.noConfusion h
  · rename_i id hid
    split at h
    · exact Except.noConfusion h
    · rename_i hne
      split at h
      · rename_i hdb hrev
        cases h
        exact ⟨id, hid, hne, by simp [dbGenOf, hdb], by simp [dbGenOf, hdb]⟩
      · exact Except.noConfusion h
      · rename_i e hdb hrev
        split at h
        · rename_i hdel
          cases h
          exact ⟨id, hid, hne, by simp [dbGenOf, hdb], by simp [dbGenOf, hdb]⟩
        · exact Except.noConfusion h
      · rename_i e r hdb hrev
        split at h
        · exact Except.noConfusion h
        · split at h
          · cases h
            exact ⟨id, hid, hne, by simp [dbGenOf, hdb], by simp [dbGenOf, hdb]⟩
          · exact Except.noConfusion h
      · exact Except.noConfusion h
  · exact Except.noConfusion h

theorem dbPut_match_ok {db : DB} {d : Doc} {id : String} {e : Entry}
    (hdb : alGet db id = some e) (hdel : e.deleted = false)
    (hid : alGet d "_id" = some (.str id)) (hne : id ≠ "")
    (hrev : alGet d "_rev" = some (.str (revString e.gen))) :
    dbPut db d = .ok ({id := id, rev := revString (e.gen + 1), ok := true},
      alSet db id {gen := e.gen + 1, deleted := false, doc := d}) := by
  unfold dbPut
  rw [hid]
  simp only [if_neg hne, hdb, hrev, hdel]
  simp

theorem dbRemove_after_get {db : DB} {id : String} {e : Entry}
    (hdb : alGet db id = some e) (hdel : e.deleted = false) :
    dbRemove db (entryOut id e) =
      .ok ({id := id, rev := revString (e.gen + 1), ok := true},
        alSet db id {gen := e.gen + 1, deleted := true, doc := e.doc}) := by
  unfold dbRemove
  simp only [entryOut_get_id, entryOut_get_rev]
  rw [hdb]
  simp [hdel]

theorem mapE_ok_of_all_ok {α β : Type} {f : α → Except DbError β}
    {l : List α} (h : ∀ a ∈ l, (f a).isOk = true) :
    ∃ out, mapE f l = .ok out ∧ out.length = l.length := by
  induction l with
  | nil => exact ⟨[], rfl, rfl⟩
  | cons a as ih =>
    have ha := h a (List.mem_cons_self _ _)
    obtain ⟨out2, hout2, hlen⟩ := ih (fun x hx => h x (List.mem_cons_of_mem _ hx))
    cases hf : f a with
    | error e =>
      rw [hf] at ha
      simp [Except.isOk, Except.toBool] at ha
    | ok b =>
      refine ⟨b :: out2, ?_, by simp [hlen]⟩
      simp only [mapE, hf, hout2]

theorem mapE_error_of_mem {α β : Type} {f : α → Except DbError β}
    {l : List α} {a : α} {e0 : DbError}
    (hmem : a ∈ l) (herr : f a = .error e0) :
    ∃ e, mapE f l = .error e ∧ ∃ a2 ∈ l, f a2 = .error e := by
  induction l with
  | nil => simp at hmem
  | cons b bs ih =>
    cases hf : f b with
    | error e =>
      exact ⟨e, by simp only [mapE, hf], b, List.mem_cons_self _ _, hf⟩
    | ok v =>
      rcases List.mem_cons.1 hmem with h1 | h2
      · subst h1
        rw [hf] at herr
        exact Except.noConfusion herr
      · obtain ⟨e, hmap, a2, ha2, ha2e⟩ := ih h2
        refine ⟨e, ?_, a2, List.mem_cons_of_mem _ ha2, ha2e⟩
        simp only [mapE, hf, hmap]

theorem mapE_mem_of_ok {α β : Type} {f : α → Except DbError β}
    {l : List α} {out : List β} {b : β}
    (h : mapE f l = .ok out) (hb : b ∈ out) :
    ∃ a ∈ l, f a = .ok b := by
  induction l generalizing out with
  | nil =>
    simp only [mapE] at h
    cases h
    simp at hb
  | cons a as ih =>
    simp only [mapE] at h
    split at h
    · exact Except.noConfusion h
    · rename_i v hf
      split at h
      · exact Except.noConfusion h
      · rename_i bs hbs
        cases h
        rcases List.mem_cons.1 hb with h1 | h2
        · exact ⟨a, List.mem_cons_self _ _, h1 ▸ hf⟩
        · obtain ⟨a2, ha2, ha2f⟩ := ih hbs h2
          exact ⟨a2, List.mem_cons_of_mem _ ha2, ha2f⟩

/-- One call issued to the store collaborator. -/
inductive StoreCall where
  | putCall (doc : Doc)
  | getCall (id : String)
  | findCall (req : FindOptions)
  | removeCall (doc : Doc)
  deriving DecidableEq, Repr

/-- The sequence of store calls a Collection method issued. -/
abbrev Trace := List StoreCall

/-- The Collection wrapper: a collection-name string and a schema `parse`
function (the database handle is passed explicitly as threaded state). -/
structure Collection where
  name : String
  schema : Doc → Except DbError Doc

/-- `doc._id` read as the string PouchDB's `get` is called with. -/
def docId (d : Doc) : String :=
  match alGet d "_id" with
  | some (.str s) => s
  | _ => ""

/-- `Collection.put` (src/index.ts line 29): validate against the schema,
stamp `$collection` with the collection name, submit to the store's `put`,
and settle with the store's response or surface the failure unchanged. -/
def Collection.put (c : Collection) (db : DB) (data : Doc) :
    Except DbError PutResp × DB × Trace :=
  match c.schema data with
  | .error e => (.error e, db, [])
  | .ok doc =>
    let d2 := alSet doc "$collection" (.str c.name)
    match dbPut db d2 with
    | .ok (resp, db2) => (.ok resp, db2, [.putCall d2])
    | .error e => (.error e, db, [.putCall d2])

/-- `Collection.update` (src/index.ts line 42): validate, fetch the current
document by the validated `_id` (surfacing the store's 404), stamp
`$collection`, overwrite `_rev` with the fetched revision, then submit the
same conditional write as `put`. -/
def Collection.update (c : Collection) (db : DB) (data : Doc) :
    Except DbError PutResp × DB × Trace :=
  match c.schema data with
  | .error e => (.error e, db, [])
  | .ok doc =>
    match dbGet db (docId doc) with
    | .error e => (.error e, db, [.getCall (docId doc)])
    | .ok existing =>
      let d2 := alSet (alSet doc "$collection" (.str c.name)) "_rev"
        ((alGet existing "_rev").getD (.str ""))
      match dbPut db d2 with
      | .ok (resp, db2) => (.ok resp, db2, [.getCall (docId doc), .putCall d2])
      | .error e => (.error e, db, [.getCall (docId doc), .putCall d2])

/-- The caller's options object after `find` ran (src/index.ts line 62):
when a `fields` projection was passed, `find` reassigns `options.fields` to
a new array with `_id` and `_rev` appended — an in-place mutation of the
caller-owned object, modelled by returning the object's post-call value. -/
def optionsAfter (options : Option FindOptions) : Option FindOptions :=
  match options with
  | none => none
  | some o =>
    match o.fields with
    | some fl => some {o with fields := some (fl ++ ["_id", "_rev"])}
    | none => some o

/-- The request object `find` submits to the store (src/index.ts lines
63-69): the (mutated) options spread, with the selector replaced by the
caller's selector spread under `$collection = collectionName` — the spread
order makes the collection tag override any caller value for that key. -/
def Collection.findReq (c : Collection) (options : Option FindOptions) :
    FindOptions :=
  let base := (optionsAfter options).getD emptyFind
  {base with
    selector := some (alSet (base.selector.getD []) "$collection" (.str c.name))}

/-- `Collection.find` (src/index.ts line 57): mutate the `fields`
projection, query the store with the collection-scoped selector, then parse
every returned record against the schema, the first failure failing the
whole call. Returns (settled result, caller's options object after the
call, store-call trace); the database state is untouched. -/
def Collection.find (c : Collection) (db : DB)
    (options : Option FindOptions) :
    Except DbError (List Doc) × Option FindOptions × Trace :=
  let req := c.findReq options
  (mapE c.schema (dbFind db req), optionsAfter options, [.findCall req])

/-- `Collection.findById` (src/index.ts line 80): fetch by primary key
(surfacing the store's 404 "missing"), then validate against the schema. -/
def Collection.findById (c : Collection) (db : DB) (id : String) :
    Except DbError Doc × Trace :=
  match dbGet db id with
  | .error e => (.error e, [.getCall id])
  | .ok d => (c.schema d, [.getCall id])

/-- `Collection.removeById` (src/index.ts line 91) with an explicit
environment step `mid` between its two store calls (spec §5: concurrent
callers may interleave while the wrapper awaits). The `get` is awaited, so
its failure settles the call; the `remove` is issued WITHOUT `await` —
its outcome is discarded: the method resolves successfully whether the
delete was applied (`db3`) or failed (state left as `db2`). -/
def Collection.removeByIdWith (_c : Collection) (db : DB) (mid : DB → DB)
    (id : String) : Except DbError Unit × DB × Trace :=
  match dbGet db id with
  | .error e => (.error e, db, [.getCall id])
  | .ok doc =>
    let db2 := mid db
    match dbRemove db2 doc with
    | .ok (_, db3) => (.ok (), db3, [.getCall id, .removeCall doc])
    | .error _ => (.ok (), db2, [.getCall id, .removeCall doc])

/-- `Collection.removeById` under straight-line single-client execution
(no interleaved writer between the `get` and the issued `remove`). -/
def Collection.removeById (c : Collection) (db : DB) (id : String) :
    Except DbError Unit × DB × Trace :=
  c.removeByIdWith db (fun s => s) id

deriving instance DecidableEq for Except

theorem put_ok_inv {c : Collection} {db : DB} {data : Doc} {resp : PutResp}
    {db2 : DB} {tr : Trace}
    (h : Collection.put c db data = (.ok resp, db2, tr)) :
    ∃ doc, c.schema data = .ok doc ∧
      dbPut db (alSet doc "$collection" (.str c.name)) = .ok (resp, db2) ∧
      tr = [.putCall (alSet doc "$collection" (.str c.name))] := by
  simp only [Collection.put] at h
  split at h
  · simp at h
  · rename_i doc hdoc
    split at h
    · rename_i resp2 db3 hput
      simp only [Prod.mk.injEq, Except.ok.injEq] at h
      obtain ⟨h1, h2, h3⟩ := h
      exact ⟨doc, hdoc, by rw [hput, h1, h2], h3.symm⟩
    · simp at h

theorem update_ok_inv {c : Collection} {db : DB} {data : Doc}
    {resp : PutResp} {db2 : DB} {tr : Trace}
    (h : Collection.update c db data = (.ok resp, db2, tr)) :
    ∃ doc ex, c.schema data = .ok doc ∧ dbGet db (docId doc) = .ok ex ∧
      dbPut db (alSet (alSet doc "$collection" (.str c.name)) "_rev"
        ((alGet ex "_rev").getD (.str ""))) = .ok (resp, db2) ∧
      tr = [.getCall (docId doc),
        .putCall (alSet (alSet doc "$collection" (.str c.name)) "_rev"
          ((alGet ex "_rev").getD (.str "")))] := by
  simp only [Collection.update] at h
  split at h
  · simp at h
  · rename_i doc hdoc
    split at h
    · simp at h
    · rename_i ex hex
      split at h
      · rename_i resp2 db3 hput
        simp only [Prod.mk.injEq, Except.ok.injEq] at h
        obtain ⟨h1, h2, h3⟩ := h
        exact ⟨doc, ex, hdoc, hex, by rw [hput, h1, h2], h3.symm⟩
      · simp at h

/-- The `users` collection of the repository's tests: `BaseSchema` (required
string `_id`, optional string `_rev`) extended with required string `name`. -/
def userFields : List (String × FieldSpec) :=
  [("_id", {ftype := .tStr, opt := false}),
   ("_rev", {ftype := .tStr, opt := true}),
   ("name", {ftype := .tStr, opt := false})]

/-- `new Collection(pouchDb, 'users', UserSchema)`. -/
def usersC : Collection := {name := "users", schema := objectParse userFields}

/-- A second collection with a different name over the same database. -/
def otherC : Collection := {name := "other", schema := objectParse userFields}

/-- The `BadSchema` of the test "reject with an invalid schema": it does not
declare `_id` at all. -/
def badFields : List (String × FieldSpec) :=
  [("foo", {ftype := .tStr, opt := false})]

/-- `new Collection(pouchDb, 'users', BadSchema)`. -/
def badC : Collection := {name := "users", schema := objectParse badFields}

/-- The test document `{_id: 'john', name: 'John'}`. -/
def johnDoc : Doc := [("_id", Val.str "john"), ("name", Val.str "John")]

/-- `johnDoc` after the wrapper stamped `$collection`. -/
def johnTagged : Doc :=
  [("_id", Val.str "john"), ("name", Val.str "John"),
   ("$collection", Val.str "users")]

/-- What the store's `get` returns for `johnTagged` at generation 1. -/
def johnStored : Doc :=
  [("_id", Val.str "john"), ("name", Val.str "John"),
   ("$collection", Val.str "users"), ("_rev", Val.str "1-x")]

/-- What `findById` hands back after read-side parsing of `johnStored`. -/
def johnRead : Doc :=
  [("_id", Val.str "john"), ("_rev", Val.str "1-x"), ("name", Val.str "John")]

/-- The database after `put`ting `johnDoc` into `usersC`. -/
def dbJohn : DB := [("john", {gen := 1, deleted := false, doc := johnTagged})]

/-- The same database after a concurrent writer advanced john to gen 2. -/
def dbJohn2 : DB := [("john", {gen := 2, deleted := false, doc := johnTagged})]

/-- The database after john was deleted (tombstone at gen 2). -/
def dbJohnDel : DB := [("john", {gen := 2, deleted := true, doc := johnTagged})]

example : Collection.put usersC [] johnDoc =
    (.ok {id := "john", rev := "1-x", ok := true}, dbJohn,
     [.putCall johnTagged]) := by decide

example : (Collection.findById usersC dbJohn "john").1 = .ok johnRead := by
  decide

example : Collection.removeById usersC dbJohn "john" =
    (.ok (), dbJohnDel, [.getCall "john", .removeCall johnStored]) := by decide

/-- C1 counterexample: with the `BadSchema` collection and input
`{foo: "bar"}` (the repository's own test input), `put` does fail with the
message "_id is required for puts", but the store IS called — the trace of
store calls is not empty, the document was submitted and the store's `put`
rejected it. This refutes "before any call to the store is made". -/
theorem c1_counterexample :
    (Collection.put badC [] [("foo", Val.str "bar")]).1 =
      .error (.missingId "_id is required for puts") ∧
    (Collection.put badC [] [("foo", Val.str "bar")]).2.2 ≠ ([] : Trace) := by
  decide

/-- C1 (amended): for every input whose schema-validated result does not
expose a non-empty string `_id`, `put` submits the `$collection`-stamped
document to the store in its single store call, and the STORE's `put`
rejects it with the message "_id is required for puts"; no document is
written (the database state is unchanged). The check lives in the store
collaborator, not in a wrapper precondition executed before the store is
touched. -/
theorem c1_put_missing_id_rejected_by_store (c : Collection) (db : DB)
    (data doc : Doc) (hparse : c.schema data = .ok doc)
    (hid : alGet doc "_id" = none ∨ alGet doc "_id" = some (.str "")) :
    Collection.put c db data =
      (.error (.missingId "_id is required for puts"), db,
       [.putCall (alSet doc "$collection" (.str c.name))]) := by
  have hset : alGet (alSet doc "$collection" (.str c.name)) "_id" =
      alGet doc "_id" := alGet_alSet_ne _ (by decide) _
  have hdb : dbPut db (alSet doc "$collection" (.str c.name)) =
      .error (.missingId "_id is required for puts") := by
    unfold dbPut
    rcases hid with h | h
    · rw [hset, h]
    · rw [hset, h]
      simp
  simp only [Collection.put, hparse, hdb]

/-- C1 witness: the amended theorem applied at the `BadSchema` input. -/
theorem c1_witness :
    badC.schema [("foo", Val.str "bar")] = .ok [("foo", Val.str "bar")] ∧
    alGet [("foo", Val.str "bar")] "_id" = none ∧
    Collection.put badC [] [("foo", Val.str "bar")] =
      (.error (.missingId "_id is required for puts"), [],
       [.putCall (alSet [("foo", Val.str "bar")] "$collection"
         (.str "users"))]) :=
  ⟨by decide, by decide,
    c1_put_missing_id_rejected_by_store badC [] [("foo", Val.str "bar")]
      [("foo", Val.str "bar")] (by decide) (Or.inl (by decide))⟩

/-- C2: every document a successful `put` or `update` submits to the store
carries exactly one `$collection` binding, whose value is the collection
instance's name — whatever value the caller supplied for that field. -/
theorem c2_written_doc_tagged (fs : List (String × FieldSpec))
    (c : Collection) (db : DB) (data : Doc)
    (hschema : c.schema = objectParse fs)
    (hnd : (fs.map Prod.fst).Nodup) :
    (∀ resp db2 tr, Collection.put c db data = (.ok resp, db2, tr) →
      ∃ d, tr = [.putCall d] ∧ alGet d "$collection" = some (.str c.name) ∧
        alCount d "$collection" = 1) ∧
    (∀ resp db2 tr, Collection.update c db data = (.ok resp, db2, tr) →
      ∃ id d, tr = [.getCall id, .putCall d] ∧
        alGet d "$collection" = some (.str c.name) ∧
        alCount d "$collection" = 1) := by
  have hcount : ∀ doc : Doc, c.schema data = .ok doc →
      alCount doc "$collection" ≤ 1 := by
    intro doc hdoc
    rw [hschema] at hdoc
    unfold objectParse at hdoc
    split at hdoc
    · rename_i out hout
      cases hdoc
      exact nodupKeys_alCount_le_one
        (objectParseFields_nodup_keys hnd hout) _
    · exact Except.noConfusion hdoc
  constructor
  · intro resp db2 tr h
    obtain ⟨doc, hdoc, hput, htr⟩ := put_ok_inv h
    refine ⟨alSet doc "$collection" (.str c.name), htr, ?_, ?_⟩
    · exact alGet_alSet_same _ _ _
    · exact alCount_alSet_self (hcount doc hdoc) _
  · intro resp db2 tr h
    obtain ⟨doc, ex, hdoc, hex, hput, htr⟩ := update_ok_inv h
    refine ⟨docId doc,
      alSet (alSet doc "$collection" (.str c.name)) "_rev"
        ((alGet ex "_rev").getD (.str "")), htr, ?_, ?_⟩
    · rw [alGet_alSet_ne _ (by decide), alGet_alSet_same]
    · rw [alCount_alSet_ne _ (by decide)]
      exact alCount_alSet_self (hcount doc hdoc) _

/-- C2 witness: the theorem applied at a concrete successful `put` (the
tagged document in the trace is `johnTagged`, holding one `$collection`
binding with value "users"). -/
theorem c2_witness :
    usersC.schema = objectParse userFields ∧
    (userFields.map Prod.fst).Nodup ∧
    Collection.put usersC [] johnDoc =
      (.ok {id := "john", rev := "1-x", ok := true}, dbJohn,
       [.putCall johnTagged]) ∧
    ∃ d, ([.putCall johnTagged] : Trace) = [.putCall d] ∧
      alGet d "$collection" = some (.str "users") ∧
      alCount d "$collection" = 1 :=
  ⟨rfl, by decide, by decide,
    (c2_written_doc_tagged userFields usersC [] johnDoc rfl (by decide)).1
      {id := "john", rev := "1-x", ok := true} dbJohn
      [.putCall johnTagged] (by decide)⟩

/-- A caller update payload carrying a stale `_rev` ("9-x") — `update` must
ignore it in favour of the fetched current revision. -/
def johnV2 : Doc :=
  [("_id", Val.str "john"), ("_rev", Val.str "9-x"),
   ("name", Val.str "Johnny")]

/-- C4: `update` validates, fetches the existing document by the validated
`_id` (surfacing the store's `NotFoundError` "missing" when absent), and on
success performs the conditional write with the FETCHED current `_rev` —
the submitted document's `_rev` equals the fetched one whatever `_rev` the
caller supplied (`data` is arbitrary), so the caller is never required to
supply one. -/
theorem c4_update_resolves_rev (c : Collection) (db : DB) (data doc : Doc)
    (id : String) (hparse : c.schema data = .ok doc)
    (hid : alGet doc "_id" = some (.str id)) (hne : id ≠ "") :
    (dbGet db id = .error (.notFound "missing") →
      Collection.update c db data =
        (.error (.notFound "missing"), db, [.getCall id])) ∧
    (∀ ex, dbGet db id = .ok ex →
      ∃ resp db2,
        Collection.update c db data =
          (.ok resp, db2,
           [.getCall id,
            .putCall (alSet (alSet doc "$collection" (.str c.name)) "_rev"
              ((alGet ex "_rev").getD (.str "")))]) ∧
        alGet (alSet (alSet doc "$collection" (.str c.name)) "_rev"
          ((alGet ex "_rev").getD (.str ""))) "_rev" = alGet ex "_rev") := by
  have hdocid : docId doc = id := by
    unfold docId
    rw [hid]
  constructor
  · intro herr
    simp only [Collection.update, hparse, hdocid, herr]
  · intro ex hex
    obtain ⟨e, hdb, hdel, hout⟩ := dbGet_ok_inv hex
    subst hout
    have hrevex : alGet (entryOut id e) "_rev" =
        some (.str (revString e.gen)) := entryOut_get_rev id e
    have hidd : alGet (alSet (alSet doc "$collection" (.str c.name)) "_rev"
        ((alGet (entryOut id e) "_rev").getD (.str ""))) "_id" =
        some (.str id) := by
      rw [alGet_alSet_ne _ (by decide), alGet_alSet_ne _ (by decide), hid]
    have hrevd : alGet (alSet (alSet doc "$collection" (.str c.name)) "_rev"
        ((alGet (entryOut id e) "_rev").getD (.str ""))) "_rev" =
        some (.str (revString e.gen)) := by
      rw [alGet_alSet_same, hrevex]
      rfl
    have hput := dbPut_match_ok hdb hdel hidd hne hrevd
    refine ⟨{id := id, rev := revString (e.gen + 1), ok := true},
      alSet db id (Entry.mk (e.gen + 1) false
        (alSet (alSet doc "$collection" (.str c.name)) "_rev"
          ((alGet (entryOut id e) "_rev").getD (.str "")))), ?_, ?_⟩
    · simp only [Collection.update, hparse, hdocid, hex, hput]
    · rw [alGet_alSet_same, hrevex]
      rfl

/-- C4 witness: updating john with a stale caller `_rev` "9-x" against the
one-document database; the submitted write carries the fetched "1-x". -/
theorem c4_witness :
    usersC.schema johnV2 = .ok johnV2 ∧
    alGet johnV2 "_id" = some (.str "john") ∧
    "john" ≠ "" ∧
    dbGet dbJohn "john" = .ok johnStored ∧
    ∃ resp db2,
      Collection.update usersC dbJohn johnV2 =
        (.ok resp, db2,
         [.getCall "john",
          .putCall (alSet (alSet johnV2 "$collection" (.str "users")) "_rev"
            ((alGet johnStored "_rev").getD (.str "")))]) ∧
      alGet (alSet (alSet johnV2 "$collection" (.str "users")) "_rev"
        ((alGet johnStored "_rev").getD (.str ""))) "_rev" =
        alGet johnStored "_rev" :=
  ⟨by decide, by decide, by decide, by decide,
    (c4_update_resolves_rev usersC dbJohn johnV2 johnV2 "john" (by decide)
      (by decide) (by decide)).2 johnStored (by decide)⟩

/-- C7: `removeById` on an absent (or tombstoned) id settles with the
store's `NotFoundError` "missing" and leaves the state untouched; and after
any `removeById` that resolves successfully under straight-line execution,
`findById` on the same id fails with `NotFoundError` "missing". -/
theorem c7_removeById_then_findById_missing (c : Collection) (db : DB)
    (id : String) :
    (dbGet db id = .error (.notFound "missing") →
      Collection.removeById c db id =
        (.error (.notFound "missing"), db, [.getCall id])) ∧
    (∀ db2 tr, Collection.removeById c db id = (.ok (), db2, tr) →
      (Collection.findById c db2 id).1 = .error (.notFound "missing")) := by
  constructor
  · intro herr
    simp only [Collection.removeById, Collection.removeByIdWith, herr]
  · intro db2 tr h
    simp only [Collection.removeById, Collection.removeByIdWith] at h
    split at h
    · simp at h
    · rename_i doc hget
      obtain ⟨e, hdb, hdel, hout⟩ := dbGet_ok_inv hget
      subst hout
      have hrem := dbRemove_after_get hdb hdel
      rw [hrem] at h
      simp only [Prod.mk.injEq] at h
      obtain ⟨h1, h2, h3⟩ := h
      rw [← h2]
      simp [Collection.findById, dbGet, alGet_alSet_same]
  
/-- C7 witness: both conjuncts applied concretely — removing "john" from
the one-document database then reading it back fails with "missing", and
removing the absent id "jane" from the empty database fails with
"missing". -/
theorem c7_witness :
    Collection.removeById usersC dbJohn "john" =
      (.ok (), dbJohnDel, [.getCall "john", .removeCall johnStored]) ∧
    (Collection.findById usersC dbJohnDel "john").1 =
      .error (.notFound "missing") ∧
    dbGet ([] : DB) "jane" = .error (.notFound "missing") ∧
    Collection.removeById usersC [] "jane" =
      (.error (.notFound "missing"), [], [.getCall "jane"]) :=
  ⟨by decide,
    (c7_removeById_then_findById_missing usersC dbJohn "john").2 dbJohnDel
      [.getCall "john", .removeCall johnStored] (by decide),
    by decide,
    (c7_removeById_then_findById_missing usersC [] "jane").1 (by decide)⟩

/-- C6 exhibit (code bug): `removeById` issues the store delete WITHOUT
awaiting it (src/index.ts line 93 lacks `await`). With a concurrent writer
advancing john from generation 1 to 2 between the awaited `get` and the
issued `remove` (spec §5's race window), the delete call fails with the
store's "Document update conflict" — yet `removeById` resolves
successfully, the failure is discarded rather than propagated, and the
document is still present in the resulting state when the promise has
resolved. This contradicts the claim (and the method's own documentation
"a promise that resolves when the document is deleted"). -/
theorem c6_remove_failure_swallowed :
    Collection.removeByIdWith usersC dbJohn (fun _ => dbJohn2) "john" =
      (.ok (), dbJohn2, [.getCall "john", .removeCall johnStored]) ∧
    dbRemove dbJohn2 johnStored =
      .error (.conflict "Document update conflict") ∧
    dbGet dbJohn2 "john" =
      .ok [("_id", Val.str "john"), ("name", Val.str "John"),
           ("$collection", Val.str "users"), ("_rev", Val.str "2-x")] := by
  decide

theorem optionsAfter_selector (opts : Option FindOptions) :
    ((optionsAfter opts).getD emptyFind).selector =
      (opts.getD emptyFind).selector := by
  cases opts with
  | none => rfl
  | some o => cases hf : o.fields <;> simp [optionsAfter, hf]

/-- `johnDoc` as stamped by the `other` collection. -/
def otherTagged : Doc :=
  [("_id", Val.str "john"), ("name", Val.str "John"),
   ("$collection", Val.str "other")]

/-- The database after `otherC` put `johnDoc`. -/
def dbOther : DB := [("john", {gen := 1, deleted := false, doc := otherTagged})]

/-- What the store's `get` returns for john written through `otherC`. -/
def otherStored : Doc :=
  [("_id", Val.str "john"), ("name", Val.str "John"),
   ("$collection", Val.str "other"), ("_rev", Val.str "1-x")]

/-- Caller options carrying a conflicting `$collection` selector value. -/
def selOpts : Option FindOptions :=
  some (FindOptions.mk
    (some [("name", Val.str "John"), ("$collection", Val.str "zzz")])
    none none none none none)

/-- C3: the selector `find` submits is the caller's selector merged under
`$collection = collectionName` — the collection filter wins on that key
while every other caller constraint is preserved — every stored document
the store can match against that selector carries this collection's tag,
and consequently a document written through a differently named Collection
instance over the same database is never among the matches `find` draws
its results from. -/
theorem c3_find_collection_scoped (c c2 : Collection) (db : DB)
    (data : Doc) (opts : Option FindOptions) :
    alGet ((c.findReq opts).selector.getD []) "$collection" =
      some (.str c.name) ∧
    (∀ k v, k ≠ "$collection" →
      alGet ((opts.getD emptyFind).selector.getD []) k = some v →
      alGet ((c.findReq opts).selector.getD []) k = some v) ∧
    (∀ db3 d, d ∈ dbMatches db3 ((c.findReq opts).selector.getD []) →
      alGet d "$collection" = some (.str c.name)) ∧
    (∀ resp db2 tr gd, c2.name ≠ c.name →
      Collection.put c2 db data = (.ok resp, db2, tr) →
      dbGet db2 resp.id = .ok gd →
      gd ∉ dbMatches db2 ((c.findReq opts).selector.getD [])) := by
  have hsel : (c.findReq opts).selector.getD [] =
      alSet (((optionsAfter opts).getD emptyFind).selector.getD [])
        "$collection" (.str c.name) := rfl
  have htag : alGet ((c.findReq opts).selector.getD []) "$collection" =
      some (.str c.name) := by
    rw [hsel]
    exact alGet_alSet_same _ _ _
  have hmatch : ∀ db3 d,
      d ∈ dbMatches db3 ((c.findReq opts).selector.getD []) →
      alGet d "$collection" = some (.str c.name) := by
    intro db3 d hd
    unfold dbMatches at hd
    obtain ⟨p, hp, hpd⟩ := List.mem_map.1 hd
    have hfil := List.mem_filter.1 hp
    have hselm : selMatch ((c.findReq opts).selector.getD [])
        (entryOut p.1 p.2) = true := by
      have := hfil.2
      exact (Bool.and_eq_true _ _ ▸ this).2
    have hmem : ("$collection", Val.str c.name) ∈
        (c.findReq opts).selector.getD [] := by
      rw [hsel]
      exact alSet_mem_self _ _ _
    have := List.all_eq_true.1 hselm _ hmem
    rw [← hpd]
    simpa using this
  refine ⟨htag, ?_, hmatch, ?_⟩
  · intro k v hk hv
    rw [hsel, alGet_alSet_ne _ hk, optionsAfter_selector]
    exact hv
  · intro resp db2 tr gd hne hput hget hmem
    obtain ⟨doc, hdoc, hdbput, htr⟩ := put_ok_inv hput
    obtain ⟨id, hid, hidne, hresp, hdb2⟩ := dbPut_ok_inv hdbput
    obtain ⟨e2, he2, hdel2, hgd⟩ := dbGet_ok_inv hget
    have hrid : resp.id = id := by rw [hresp]
    rw [hrid, hdb2, alGet_alSet_same] at he2
    have hgdtag : alGet gd "$collection" = some (.str c2.name) := by
      rw [hgd]
      rw [entryOut_get_other _ _ (by decide) (by decide)]
      cases he2
      exact alGet_alSet_same _ _ _
    have := hmatch db2 gd hmem
    rw [this] at hgdtag
    have : c.name = c2.name := by
      injection hgdtag with h1
      injection h1
    exact hne this.symm

/-- C3 witness: with options whose selector also constrains `$collection`
to "zzz", the submitted selector still pins `$collection` to "users"; and
john written through `otherC` is not among the matches of a `usersC`
find over the resulting database. -/
theorem c3_witness :
    alGet ((usersC.findReq selOpts).selector.getD []) "$collection" =
      some (.str "users") ∧
    otherC.name ≠ usersC.name ∧
    Collection.put otherC [] johnDoc =
      (.ok {id := "john", rev := "1-x", ok := true}, dbOther,
       [.putCall otherTagged]) ∧
    dbGet dbOther "john" = .ok otherStored ∧
    otherStored ∉ dbMatches dbOther ((usersC.findReq selOpts).selector.getD []) :=
  ⟨(c3_find_collection_scoped usersC otherC [] johnDoc selOpts).1,
    by decide, by decide, by decide,
    (c3_find_collection_scoped usersC otherC [] johnDoc selOpts).2.2.2
      {id := "john", rev := "1-x", ok := true} dbOther
      [.putCall otherTagged] otherStored (by decide) (by decide) (by decide)⟩

/-- C5: `find` has no partial-success mode — when any record the store
returns fails schema validation, the whole call settles with a validation
failure that is the parse error of one of the returned records (JS throws
out of the `map` at the first failure) and no documents are returned; when
every record validates, the call succeeds with exactly one output document
per returned record. -/
theorem c5_find_all_or_nothing (c : Collection) (db : DB)
    (opts : Option FindOptions) :
    ((∃ d ∈ dbFind db (c.findReq opts), (c.schema d).isOk = false) →
      ∃ e, (Collection.find c db opts).1 = .error e ∧
        ∃ d2 ∈ dbFind db (c.findReq opts), c.schema d2 = .error e) ∧
    ((∀ d ∈ dbFind db (c.findReq opts), (c.schema d).isOk = true) →
      ∃ out, (Collection.find c db opts).1 = .ok out ∧
        out.length = (dbFind db (c.findReq opts)).length) := by
  constructor
  · intro hbad
    obtain ⟨d, hd, herr⟩ := hbad
    obtain ⟨e0, he0⟩ : ∃ e0, c.schema d = .error e0 := by
      cases hs : c.schema d with
      | error e0 => exact ⟨e0, rfl⟩
      | ok v => rw [hs] at herr; simp [Except.isOk, Except.toBool] at herr
    obtain ⟨e, hmap, d2, hd2, hd2e⟩ := mapE_error_of_mem hd he0
    exact ⟨e, hmap, d2, hd2, hd2e⟩
  · intro hall
    obtain ⟨out, hout, hlen⟩ := mapE_ok_of_all_ok hall
    exact ⟨out, hout, hlen⟩

/-- A stored document inside the "users" collection whose body lacks the
required `name` field (external tampering / schema drift, spec §4). -/
def dbBadDoc : DB :=
  [("weird", Entry.mk 1 false
    [("_id", Val.str "weird"), ("$collection", Val.str "users")])]

/-- C5 witness: one invalid member document fails the whole `find` call
with its validation error. -/
theorem c5_witness :
    (∃ d ∈ dbFind dbBadDoc (usersC.findReq none),
      (usersC.schema d).isOk = false) ∧
    ∃ e, (Collection.find usersC dbBadDoc none).1 = .error e ∧
      ∃ d2 ∈ dbFind dbBadDoc (usersC.findReq none),
        usersC.schema d2 = .error e :=
  ⟨by decide,
    (c5_find_all_or_nothing usersC dbBadDoc none).1 (by decide)⟩

/-- C9: under a schema that does not declare `$collection`, no document
returned by `findById` or `find` contains the `$collection` field — the
tag is stripped by read-side schema parsing and never exposed as
schema-validated caller data. -/
theorem c9_tag_stripped_on_read (fs : List (String × FieldSpec))
    (c : Collection) (db : DB) (id : String) (opts : Option FindOptions)
    (hschema : c.schema = objectParse fs)
    (hcol : "$collection" ∉ fs.map Prod.fst) :
    (∀ res, (Collection.findById c db id).1 = .ok res →
      alGet res "$collection" = none) ∧
    (∀ out res, (Collection.find c db opts).1 = .ok out → res ∈ out →
      alGet res "$collection" = none) := by
  have hstrip : ∀ d res, c.schema d = .ok res →
      alGet res "$collection" = none := by
    intro d res hres
    rw [hschema] at hres
    unfold objectParse at hres
    split at hres
    · rename_i out hout
      cases hres
      exact objectParseFields_get_undeclared hout hcol
    · exact Except.noConfusion hres
  constructor
  · intro res hres
    unfold Collection.findById at hres
    split at hres
    · simp at hres
    · rename_i d hd
      exact hstrip d res hres
  · intro out res hout hres
    have hmap : mapE c.schema (dbFind db (c.findReq opts)) = .ok out := hout
    obtain ⟨d, hd, hdres⟩ := mapE_mem_of_ok hmap hres
    exact hstrip d res hdres

/-- C9 witness: both read paths applied at the one-document database —
the value handed back is `johnRead`, which carries no `$collection`. -/
theorem c9_witness :
    usersC.schema = objectParse userFields ∧
    "$collection" ∉ userFields.map Prod.fst ∧
    (Collection.findById usersC dbJohn "john").1 = .ok johnRead ∧
    alGet johnRead "$collection" = none ∧
    (Collection.find usersC dbJohn none).1 = .ok [johnRead] ∧
    ∀ res, res ∈ [johnRead] → alGet res "$collection" = none :=
  ⟨rfl, by decide, by decide, by decide, by decide,
    fun res hres =>
      (c9_tag_stripped_on_read userFields usersC dbJohn "john" none rfl
        (by decide)).2 [johnRead] res (by decide) hres⟩

/-- C10: when the caller passes options with a `fields` projection, `find`
reassigns `options.fields` on the caller-owned object to a new array with
`_id` and `_rev` appended (unconditionally, even when already present), so
after the call the object differs from what the caller passed while every
other component of the options object is unchanged. -/
theorem c10_find_mutates_caller_options (c : Collection) (db : DB)
    (o : FindOptions) (l : List String) (hf : o.fields = some l) :
    (Collection.find c db (some o)).2.1 =
      some {o with fields := some (l ++ ["_id", "_rev"])} ∧
    (Collection.find c db (some o)).2.1 ≠ some o := by
  have h1 : (Collection.find c db (some o)).2.1 =
      some {o with fields := some (l ++ ["_id", "_rev"])} := by
    simp only [Collection.find, optionsAfter, hf]
  refine ⟨h1, ?_⟩
  rw [h1]
  intro hcontra
  rw [Option.some_inj] at hcontra
  have hfield : some (l ++ ["_id", "_rev"]) = some l := by
    have hff := congrArg FindOptions.fields hcontra
    simp only [hf] at hff
    exact hff
  have hlist : l ++ ["_id", "_rev"] = l := Option.some_injective _ hfield
  have hlen := congrArg List.length hlist
  simp at hlen

/-- Caller options whose projection already lists `_id`. -/
def fieldOpts : FindOptions :=
  {selector := none, fields := some ["_id"], sort := none, limit := none,
   skip := none, use_index := none}

/-- C10 witness: the caller's `fields: ['_id']` object comes back as
`['_id', '_id', '_rev']` — appended even though `_id` was already there —
and thus differs from what was passed. -/
theorem c10_witness :
    fieldOpts.fields = some ["_id"] ∧
    (Collection.find usersC [] (some fieldOpts)).2.1 =
      some {fieldOpts with fields := some ["_id", "_id", "_rev"]} ∧
    (Collection.find usersC [] (some fieldOpts)).2.1 ≠ some fieldOpts :=
  ⟨by decide,
    (c10_find_mutates_caller_options usersC [] fieldOpts ["_id"] rfl).1,
    (c10_find_mutates_caller_options usersC [] fieldOpts ["_id"] rfl).2⟩

/-- C8 counterexample: writing `{_id:"john", name:"John"}` through `put`
and reading it back with `findById` returns a document WITHOUT the
`$collection` field — read-side schema parsing strips the tag (the schema
does not declare it), refuting "`$collection` is present" for the returned
document. -/
theorem c8_counterexample :
    (Collection.put usersC [] johnDoc).1 =
      .ok {id := "john", rev := "1-x", ok := true} ∧
    (Collection.findById usersC (Collection.put usersC [] johnDoc).2.1
      "john").1 = .ok johnRead ∧
    alGet johnRead "$collection" = none := by
  decide

/-- C8 (amended): for every document D in validated form (the schema parses
D to itself) successfully written via `put` under an object schema that
declares `_rev` (optional string) and does not declare `$collection`,
`findById(D._id)` afterward returns a document equal to D except that
`_rev` is advanced to the fresh revision the `put` returned (the successor
generation of the lineage); `$collection` is present on the STORED document
but stripped from the returned value by read-side schema parsing. -/
theorem c8_put_findById_roundtrip (fs : List (String × FieldSpec))
    (c : Collection) (db : DB) (D : Doc) (resp : PutResp) (db2 : DB)
    (tr : Trace)
    (hschema : c.schema = objectParse fs)
    (hnd : (fs.map Prod.fst).Nodup)
    (hrev : ("_rev", FieldSpec.mk .tStr true) ∈ fs)
    (hcol : "$collection" ∉ fs.map Prod.fst)
    (hD : c.schema D = .ok D)
    (hput : Collection.put c db D = (.ok resp, db2, tr)) :
    resp.rev = revString (dbGenOf db resp.id + 1) ∧
    (∃ e, alGet db2 resp.id = some e ∧
      alGet e.doc "$collection" = some (.str c.name)) ∧
    ∃ res, (Collection.findById c db2 resp.id).1 = .ok res ∧
      alGet res "$collection" = none ∧
      ∀ k, alGet res k = alGet (alSet D "_rev" (.str resp.rev)) k := by
  obtain ⟨doc, hdoc, hdbput, htr⟩ := put_ok_inv hput
  rw [hD] at hdoc
  injection hdoc with hdocD
  subst hdocD
  obtain ⟨id, hid, hidne, hresp, hdb2⟩ := dbPut_ok_inv hdbput
  have hrespid : resp.id = id := by rw [hresp]
  have hresprev : resp.rev = revString (dbGenOf db id + 1) := by rw [hresp]
  have hout : objectParseFields fs D = .ok D := by
    rw [hschema] at hD
    unfold objectParse at hD
    split at hD
    · rename_i o ho
      cases hD
      exact ho
    · exact Except.noConfusion hD
  have hOkFields := objectParseFields_fields_of_ok hout
  have hDkeys : ∀ k, k ∉ fs.map Prod.fst → alGet D k = none := by
    intro k hk
    apply alGet_eq_none_of_not_mem_keys
    exact fun hmem => hk ((objectParseFields_keys_sublist hout).mem hmem)
  -- the tagged document submitted to the store and the stored read-back
  have hcolset : alGet (alSet D "$collection" (.str c.name)) "$collection" =
      some (.str c.name) := alGet_alSet_same _ _ _
  have hdfield : ∀ k, k ≠ "$collection" →
      alGet (alSet D "$collection" (.str c.name)) k = alGet D k :=
    fun k hk => alGet_alSet_ne _ hk _
  have hget : dbGet db2 id = .ok (entryOut id
      (Entry.mk (dbGenOf db id + 1) false
        (alSet D "$collection" (.str c.name)))) := by
    rw [hdb2]
    unfold dbGet
    rw [alGet_alSet_same]
    simp
  have hstored_rev : alGet (entryOut id
      (Entry.mk (dbGenOf db id + 1) false
        (alSet D "$collection" (.str c.name)))) "_rev" =
      some (.str (revString (dbGenOf db id + 1))) := entryOut_get_rev _ _
  have hstored : ∀ k, k ≠ "_rev" →
      alGet (entryOut id (Entry.mk (dbGenOf db id + 1) false
        (alSet D "$collection" (.str c.name)))) k =
      alGet (alSet D "$collection" (.str c.name)) k := by
    intro k hk
    unfold entryOut
    rw [alGet_alSet_ne _ hk]
    by_cases hkid : k = "_id"
    · subst hkid
      rw [alGet_alSet_same, hid]
    · rw [alGet_alSet_ne _ hkid]
  have hparseok : ∃ res, objectParseFields fs (entryOut id
      (Entry.mk (dbGenOf db id + 1) false
        (alSet D "$collection" (.str c.name)))) = .ok res := by
    apply objectParseFields_ok_of_fields
    intro p hp
    obtain ⟨k, s⟩ := p
    by_cases hkrev : k = "_rev"
    · subst hkrev
      have hs : s = FieldSpec.mk .tStr true := keyed_mem_nodup_eq hnd hp hrev
      subst hs
      unfold fieldOk
      rw [hstored_rev]
      rfl
    · have hkcol : k ≠ "$collection" := by
        intro hc
        exact hcol (hc ▸ List.mem_map.2 ⟨(k, s), hp, rfl⟩)
      have hval := hOkFields (k, s) hp
      unfold fieldOk at hval ⊢
      rw [hstored k hkrev, hdfield k hkcol]
      exact hval
  obtain ⟨res, hres⟩ := hparseok
  have hrevmem : "_rev" ∈ fs.map Prod.fst :=
    List.mem_map.2 ⟨("_rev", FieldSpec.mk .tStr true), hrev, rfl⟩
  refine ⟨hresprev.trans (by rw [hrespid]), ?_, res, ?_, ?_, ?_⟩
  · refine ⟨Entry.mk (dbGenOf db id + 1) false
      (alSet D "$collection" (.str c.name)), ?_, hcolset⟩
    rw [hrespid, hdb2, alGet_alSet_same]
  · rw [hrespid]
    simp only [Collection.findById, hget]
    rw [hschema]
    unfold objectParse
    rw [hres]
  · exact objectParseFields_get_undeclared hres hcol
  · intro k
    rw [hresprev]
    by_cases hkrev : k = "_rev"
    · subst hkrev
      rw [alGet_alSet_same,
        objectParseFields_get_declared hnd hres hrevmem, hstored_rev]
    · rw [alGet_alSet_ne _ hkrev]
      by_cases hkfs : k ∈ fs.map Prod.fst
      · have hkcol : k ≠ "$collection" := fun hc => hcol (hc ▸ hkfs)
        rw [objectParseFields_get_declared hnd hres hkfs, hstored k hkrev,
          hdfield k hkcol]
      · rw [objectParseFields_get_undeclared hres hkfs, hDkeys k hkfs]

/-- C8 witness: the amended theorem applied at the concrete round trip of
`{_id:"john", name:"John"}` through the empty database. -/
theorem c8_witness :
    usersC.schema = objectParse userFields ∧
    (userFields.map Prod.fst).Nodup ∧
    ("_rev", FieldSpec.mk .tStr true) ∈ userFields ∧
    "$collection" ∉ userFields.map Prod.fst ∧
    usersC.schema johnDoc = .ok johnDoc ∧
    Collection.put usersC [] johnDoc =
      (.ok {id := "john", rev := "1-x", ok := true}, dbJohn,
       [.putCall johnTagged]) ∧
    ({id := "john", rev := "1-x", ok := true} : PutResp).rev =
      revString (dbGenOf [] ({id := "john", rev := "1-x", ok := true} :
        PutResp).id + 1) ∧
    (∃ e, alGet dbJohn ({id := "john", rev := "1-x", ok := true} :
        PutResp).id = some e ∧
      alGet e.doc "$collection" = some (.str "users")) ∧
    ∃ res, (Collection.findById usersC dbJohn
        ({id := "john", rev := "1-x", ok := true} : PutResp).id).1 =
        .ok res ∧
      alGet res "$collection" = none ∧
      ∀ k, alGet res k = alGet (alSet johnDoc "_rev" (.str "1-x")) k :=
  ⟨rfl, by decide, by decide, by decide, by decide, by decide,
    (c8_put_findById_roundtrip userFields usersC [] johnDoc
      {id := "john", rev := "1-x", ok := true} dbJohn [.putCall johnTagged]
      rfl (by decide) (by decide) (by decide) (by decide) (by decide)).1,
    (c8_put_findById_roundtrip userFields usersC [] johnDoc
      {id := "john", rev := "1-x", ok := true} dbJohn [.putCall johnTagged]
      rfl (by decide) (by decide) (by decide) (by decide) (by decide)).2.1,
    (c8_put_findById_roundtrip userFields usersC [] johnDoc
      {id := "john", rev := "1-x", ok := true} dbJohn [.putCall johnTagged]
      rfl (by decide) (by decide) (by decide) (by decide) (by decide)).2.2⟩
